import Mathlib

/-!
Verification of the `metatutu.pipeline` worker/task concurrency framework
(`src/lib/metatutu/pipeline.py`) against its natural-language specification.

The Python code is shallowly embedded: each class/method that the claims
mention is translated into an executable Lean definition over explicit
state, and the claimed properties are proved (or refuted) about those
definitions.
-/

open scoped List

namespace Pipeline

/-! ## TaskQueue (`_TaskQueueItem`, `TaskQueue`) -/

/-- Embeds `_TaskQueueItem.__init__`: `(index, priority, task)`. -/
structure TaskQueueItem (α : Type) where
  index : Nat
  priority : Int
  task : α
  deriving Repr, DecidableEq

/-- Embeds `_TaskQueueItem.__lt__`: priority first (lower value smaller),
ties broken by ascending `index`. -/
def TaskQueueItem.lt {α : Type} (a b : TaskQueueItem α) : Bool :=
  if a.priority < b.priority then true
  else if a.priority = b.priority then decide (a.index < b.index)
  else false

/-- Embeds `TaskQueue` state: the multiset of queued items
(`queue.PriorityQueue` contents), `__total_count`, `__peak_count`, and
the `maxsize` bound (0 = unbounded). -/
structure TaskQueue (α : Type) where
  items : List (TaskQueueItem α)
  total_count : Nat
  peak_count : Nat
  maxsize : Nat
  deriving Repr

/-- A fresh `TaskQueue(maxsize)`. -/
def TaskQueue.mk0 (α : Type) (maxsize : Nat) : TaskQueue α :=
  ⟨[], 0, 0, maxsize⟩

/-- Embeds `TaskQueue.push_task(task, priority, timeout)` run to completion:
`None` task fails immediately; a bounded full queue makes the blocking `put`
time out, which the `except` turns into `False` with no state change;
otherwise the item is inserted with index `total_count + 1` and the
`total_count` / `peak_count` counters are updated. -/
def TaskQueue.push_task {α : Type} (q : TaskQueue α) (task : Option α)
    (priority : Int := 100) : Bool × TaskQueue α :=
  match task with
  | none => (false, q)
  | some t =>
    if q.maxsize ≠ 0 ∧ q.maxsize ≤ q.items.length then
      (false, q)
    else
      let index := q.total_count + 1
      let items := q.items ++ [⟨index, priority, t⟩]
      let total := q.total_count + 1
      let peak := if q.peak_count < items.length then items.length else q.peak_count
      (true, ⟨items, total, peak, q.maxsize⟩)

/-- Selection step of `queue.PriorityQueue.get`: among the held items the
smallest w.r.t. `_TaskQueueItem.__lt__` is removed and returned; the
accumulator `m` is the current minimum. -/
def selectMin {α : Type} (m : TaskQueueItem α) :
    List (TaskQueueItem α) → TaskQueueItem α × List (TaskQueueItem α)
  | [] => (m, [])
  | x :: xs =>
    if TaskQueueItem.lt x m then
      let r := selectMin x xs
      (r.1, m :: r.2)
    else
      let r := selectMin m xs
      (r.1, x :: r.2)

/-- Embeds `queue.PriorityQueue.get` on the item multiset: returns the minimum
item and the remaining items, or `none` when empty. -/
def popMin {α : Type} : List (TaskQueueItem α) →
    Option (TaskQueueItem α × List (TaskQueueItem α))
  | [] => none
  | x :: xs => some (selectMin x xs)

/-- Embeds `TaskQueue.pop_task(timeout=None)`: a non-blocking `get`; on an
empty queue the `queue.Empty` exception is swallowed and `None` returned. -/
def TaskQueue.pop_task {α : Type} (q : TaskQueue α) : Option α × TaskQueue α :=
  match popMin q.items with
  | none => (none, q)
  | some (m, rest) => (some m.task, { q with items := rest })

/-- Pushing a whole list of `(priority, task)` pairs in order into a fresh
unbounded queue. -/
def pushAll {α : Type} (ps : List (Int × α)) : TaskQueue α :=
  ps.foldl (fun q pt => (q.push_task (some pt.2) pt.1).2) (TaskQueue.mk0 α 0)

theorem selectMin_length {α : Type} (m : TaskQueueItem α)
    (l : List (TaskQueueItem α)) : (selectMin m l).2.length = l.length := by
  induction l generalizing m with
  | nil => simp [selectMin]
  | cons x xs ih =>
    simp only [selectMin]
    by_cases h : TaskQueueItem.lt x m
    · simp [h, ih]
    · simp [h, ih]

/-- Draining the item multiset by repeated `get` (i.e. `popMin`) until
empty: on `x :: xs`, `popMin` yields `selectMin x xs`. -/
def drainItems {α : Type} : List (TaskQueueItem α) → List (TaskQueueItem α)
  | [] => []
  | x :: xs => (selectMin x xs).1 :: drainItems (selectMin x xs).2
termination_by l => l.length
decreasing_by simp [selectMin_length]

/-- Popping every task out of the queue via `pop_task`. -/
def TaskQueue.drain {α : Type} (q : TaskQueue α) : List α :=
  (drainItems q.items).map TaskQueueItem.task

/-! ### Order lemmas about `_TaskQueueItem.__lt__` -/

theorem lt_iff {α : Type} (a b : TaskQueueItem α) :
    TaskQueueItem.lt a b = true ↔
      (a.priority < b.priority ∨ (a.priority = b.priority ∧ a.index < b.index)) := by
  simp only [TaskQueueItem.lt]
  split_ifs with h1 h2 <;> simp_all

theorem lt_asymm' {α : Type} {a b : TaskQueueItem α}
    (h : TaskQueueItem.lt a b = true) : TaskQueueItem.lt b a = false := by
  rw [lt_iff] at h
  rw [← Bool.not_eq_true, lt_iff]
  omega

theorem lt_trans' {α : Type} {a b c : TaskQueueItem α}
    (h1 : TaskQueueItem.lt a b = true) (h2 : TaskQueueItem.lt b c = true) :
    TaskQueueItem.lt a c = true := by
  rw [lt_iff] at h1 h2 ⊢
  omega

theorem lt_total_of_ne_index {α : Type} {a b : TaskQueueItem α}
    (hne : a.index ≠ b.index) (h : TaskQueueItem.lt a b = false) :
    TaskQueueItem.lt b a = true := by
  rw [← Bool.not_eq_true, lt_iff] at h
  rw [lt_iff]
  omega

/-! ### `selectMin` / `popMin` / `drainItems` lemmas -/

theorem selectMin_perm {α : Type} (m : TaskQueueItem α)
    (l : List (TaskQueueItem α)) :
    (selectMin m l).1 :: (selectMin m l).2 ~ m :: l := by
  induction l generalizing m with
  | nil => simp [selectMin]
  | cons x xs ih =>
    simp only [selectMin]
    by_cases h : TaskQueueItem.lt x m
    · simp only [h, if_pos]
      exact (List.Perm.swap _ _ _).trans ((ih x).cons m)
    · simp only [h, if_neg, Bool.false_eq_true, not_false_iff]
      exact ((List.Perm.swap _ _ _).trans ((ih m).cons x)).trans (List.Perm.swap _ _ _)

theorem selectMin_le_acc {α : Type} (m : TaskQueueItem α)
    (l : List (TaskQueueItem α)) :
    (selectMin m l).1 = m ∨ TaskQueueItem.lt (selectMin m l).1 m = true := by
  induction l generalizing m with
  | nil => simp [selectMin]
  | cons x xs ih =>
    simp only [selectMin]
    by_cases h : TaskQueueItem.lt x m
    · simp only [h, if_pos]
      rcases ih x with h' | h'
      · right; rw [h']; exact h
      · right; exact lt_trans' h' h
    · simp only [h, if_neg, Bool.false_eq_true, not_false_iff]
      exact ih m

theorem selectMin_min {α : Type} (m : TaskQueueItem α)
    (l : List (TaskQueueItem α)) :
    ∀ y ∈ (selectMin m l).2, TaskQueueItem.lt y (selectMin m l).1 = false := by
  induction l generalizing m with
  | nil => simp [selectMin]
  | cons x xs ih =>
    simp only [selectMin]
    by_cases h : TaskQueueItem.lt x m
    · simp only [h, if_pos, List.mem_cons]
      intro y hy
      rcases hy with rfl | hy
      · rcases selectMin_le_acc x xs with h' | h'
        · rw [h']; exact lt_asymm' h
        · exact lt_asymm' (lt_trans' h' h)
      · exact ih x y hy
    · simp only [h, if_neg, Bool.false_eq_true, not_false_iff, List.mem_cons]
      intro y hy
      rcases hy with rfl | hy
      · rcases selectMin_le_acc m xs with h' | h'
        · rw [h']; exact eq_false_of_ne_true h
        · rw [← Bool.not_eq_true]
          intro hc
          exact absurd (lt_trans' hc h') (by simp [h])
      · exact ih m y hy

theorem drainItems_perm {α : Type} :
    ∀ l : List (TaskQueueItem α), drainItems l ~ l
  | [] => by rw [drainItems]
  | x :: xs => by
    rw [drainItems]
    have ih := drainItems_perm (selectMin x xs).2
    exact (ih.cons (selectMin x xs).1).trans (selectMin_perm x xs)
termination_by l => l.length
decreasing_by simp [selectMin_length]

theorem drainItems_sorted {α : Type} :
    ∀ l : List (TaskQueueItem α),
      l.Pairwise (fun a b => a.index ≠ b.index) →
      (drainItems l).Pairwise (fun a b => TaskQueueItem.lt a b = true)
  | [], _ => by rw [drainItems]; exact List.Pairwise.nil
  | x :: xs, hpw => by
    rw [drainItems]
    have hperm : (selectMin x xs).1 :: (selectMin x xs).2 ~ x :: xs :=
      selectMin_perm x xs
    have hsymm : Symmetric (fun a b : TaskQueueItem α => a.index ≠ b.index) :=
      fun a b h => Ne.symm h
    have hpw' : ((selectMin x xs).1 :: (selectMin x xs).2).Pairwise
        (fun a b => a.index ≠ b.index) :=
      (hperm.pairwise_iff (fun h => Ne.symm h)).mpr hpw
    have hrest := hpw'.of_cons
    have hhead : ∀ y ∈ (selectMin x xs).2, (selectMin x xs).1.index ≠ y.index :=
      fun y hy => List.rel_of_pairwise_cons hpw' hy
    have ih := drainItems_sorted (selectMin x xs).2 hrest
    refine List.Pairwise.cons ?_ ih
    intro y hy
    have hy' : y ∈ (selectMin x xs).2 := (drainItems_perm _).mem_iff.mp hy
    have hnotlt : TaskQueueItem.lt y (selectMin x xs).1 = false :=
      selectMin_min x xs y hy'
    exact lt_total_of_ne_index (fun h => hhead y hy' h.symm) hnotlt
termination_by l => l.length
decreasing_by simp [selectMin_length]

/-! ### Shape of the queue after a sequence of `push_task` calls -/

/-- The items a sequence of successful pushes produces, with sequence
indexes counting up from `n`. -/
def buildItems {α : Type} (n : Nat) : List (Int × α) → List (TaskQueueItem α)
  | [] => []
  | (p, t) :: ps => ⟨n, p, t⟩ :: buildItems (n + 1) ps

theorem pushAll_items_go {α : Type} :
    ∀ (ps : List (Int × α)) (l : List (TaskQueueItem α)) (c pk : Nat),
      (ps.foldl (fun q pt => (q.push_task (some pt.2) pt.1).2)
        (⟨l, c, pk, 0⟩ : TaskQueue α)).items = l ++ buildItems (c + 1) ps
  | [], l, c, pk => by simp [buildItems]
  | (p, t) :: ps, l, c, pk => by
    have hstep : ((⟨l, c, pk, 0⟩ : TaskQueue α).push_task (some t) p).2 =
        (⟨l ++ [⟨c + 1, p, t⟩], c + 1,
          if pk < l.length + 1 then l.length + 1 else pk, 0⟩ : TaskQueue α) := by
      simp [TaskQueue.push_task]
    simp only [List.foldl_cons]
    rw [hstep]
    have ih := pushAll_items_go ps (l ++ [⟨c + 1, p, t⟩]) (c + 1)
      (if pk < l.length + 1 then l.length + 1 else pk)
    rw [ih]
    simp [buildItems]

theorem pushAll_items {α : Type} (ps : List (Int × α)) :
    (pushAll ps).items = buildItems 1 ps := by
  unfold pushAll TaskQueue.mk0
  exact pushAll_items_go ps [] 0 0

theorem buildItems_index_ge {α : Type} :
    ∀ (ps : List (Int × α)) (n : Nat), ∀ x ∈ buildItems n ps, n ≤ x.index
  | [], n => by simp [buildItems]
  | (p, t) :: ps, n => by
    simp only [buildItems, List.mem_cons]
    intro x hx
    rcases hx with rfl | hx
    · exact Nat.le_refl n
    · exact Nat.le_of_succ_le (buildItems_index_ge ps (n + 1) x hx)

theorem buildItems_index_sorted {α : Type} :
    ∀ (ps : List (Int × α)) (n : Nat),
      (buildItems n ps).Pairwise (fun a b => a.index < b.index)
  | [], n => List.Pairwise.nil
  | (p, t) :: ps, n => by
    simp only [buildItems]
    refine List.Pairwise.cons ?_ (buildItems_index_sorted ps (n + 1))
    intro y hy
    exact Nat.lt_of_lt_of_le (Nat.lt_succ_self n) (buildItems_index_ge ps (n + 1) y hy)

theorem buildItems_map {α : Type} :
    ∀ (ps : List (Int × α)) (n : Nat),
      (buildItems n ps).map (fun a => (a.priority, a.task)) = ps
  | [], _ => rfl
  | (p, t) :: ps, n => by
    simp [buildItems, buildItems_map ps (n + 1)]

/-- Strict order on items by sequence index alone. -/
def idxLt {α : Type} (a b : TaskQueueItem α) : Prop := a.index < b.index

instance {α : Type} : IsAntisymm (TaskQueueItem α) idxLt :=
  ⟨fun _ _ h1 h2 => absurd h2 (Nat.lt_asymm h1)⟩

/-- Claim C1: for every sequence of `TaskQueue.push_task` calls with given
priorities, repeatedly calling `pop_task` until empty returns the tasks in
non-decreasing priority order (lower priority value first), and among tasks
of equal priority in the exact order they were pushed (FIFO by insertion
index).  Here `pushAll ps` performs the pushes, `drainItems` performs the
repeated pops; the first conjunct records that the queued items list the
pushed `(priority, task)` pairs in push order, the second that every pushed
task is popped exactly once, the third the priority ordering, the fourth
FIFO order within each priority class, and the fifth ties `drain` (repeated
`pop_task`) to `drainItems`. -/
theorem C1_priority_fifo {α : Type} (ps : List (Int × α)) :
    (pushAll ps).items.map (fun a => (a.priority, a.task)) = ps ∧
    drainItems (pushAll ps).items ~ (pushAll ps).items ∧
    (drainItems (pushAll ps).items).Pairwise
      (fun a b => a.priority ≤ b.priority) ∧
    (∀ p : Int,
      (drainItems (pushAll ps).items).filter (fun a => decide (a.priority = p)) =
        (pushAll ps).items.filter (fun a => decide (a.priority = p))) ∧
    (pushAll ps).drain = (drainItems (pushAll ps).items).map TaskQueueItem.task := by
  have hitems : (pushAll ps).items = buildItems 1 ps := pushAll_items ps
  have hidx : (pushAll ps).items.Pairwise (fun a b => a.index < b.index) := by
    rw [hitems]; exact buildItems_index_sorted ps 1
  have hne : (pushAll ps).items.Pairwise (fun a b => a.index ≠ b.index) :=
    hidx.imp (fun h => Nat.ne_of_lt h)
  have hsort := drainItems_sorted (pushAll ps).items hne
  have hperm := drainItems_perm (pushAll ps).items
  refine ⟨?_, hperm, ?_, ?_, rfl⟩
  · rw [hitems]; exact buildItems_map ps 1
  · exact hsort.imp (fun h => by rw [lt_iff] at h; omega)
  · intro p
    have hpermf :
        (drainItems (pushAll ps).items).filter (fun a => decide (a.priority = p)) ~
          (pushAll ps).items.filter (fun a => decide (a.priority = p)) :=
      hperm.filter _
    have hs1 : List.Sorted idxLt
        ((drainItems (pushAll ps).items).filter (fun a => decide (a.priority = p))) := by
      refine (hsort.filter _).imp_of_mem ?_
      intro a b ha hb hlt
      have hpa : a.priority = p := by
        have := (List.mem_filter.mp ha).2
        simpa using this
      have hpb : b.priority = p := by
        have := (List.mem_filter.mp hb).2
        simpa using this
      rw [lt_iff] at hlt
      show a.index < b.index
      omega
    have hs2 : List.Sorted idxLt
        ((pushAll ps).items.filter (fun a => decide (a.priority = p))) :=
      (hidx.filter _).imp (fun h => h)
    exact List.eq_of_perm_of_sorted hpermf hs1 hs2

/-! ## Worker lifecycle (`Worker.__init__/hire/dismiss/run/__del__`) -/

/-- The four values of `Worker.__state`: `s0(init), s1(hired), s2(working),
s3(dismissed)`. -/
inductive WState where
  | init
  | hired
  | working
  | dismissed
  deriving Repr, DecidableEq

/-- Numeric value of the state, as stored in `Worker.__state`. -/
def WState.rank : WState → Nat
  | .init => 0
  | .hired => 1
  | .working => 2
  | .dismissed => 3

/-- Embeds `Worker.hire`: under the state lock, fail (returning `False`,
state untouched) unless the state is `s0(init)`, else advance to
`s1(hired)`; then start the thread — if `start()` raises (`startOk =
false`) the `except` returns `False`, with the state left at `hired`. -/
def Worker.hire (s : WState) (startOk : Bool) : Bool × WState :=
  match s with
  | .init => (startOk, .hired)
  | _ => (false, s)

/-- The observable actions `Worker.dismiss` may perform besides state
reads: raising `_dismissNotice`, `join()`, and the `_post_working()`
hook. -/
inductive DismissEvent where
  | raiseLatch
  | join
  | postWorking
  deriving Repr, DecidableEq

/-- Embeds `Worker.dismiss`: read the state; return immediately unless it
is `hired` or `working`.  If `working`, set `_dismissNotice` and `join()`
(after which the worker thread has finished `run`, leaving the state
`dismissed`), then run `_post_working`; the final state check passes.  If
`hired` (the thread was never started, as when `start()` raised during
`hire()`), skip the join, run `_post_working`, and the final state check
finds the state still `hired` and raises `"Unknown error."`.  Returns the
final state (or the exception raised) and the events performed. -/
def Worker.dismiss (s : WState) : Except String WState × List DismissEvent :=
  match s with
  | .hired => (.error "Unknown error.", [.postWorking])
  | .working => (.ok .dismissed, [.raiseLatch, .join, .postWorking])
  | s => (.ok s, [])

/-- Embeds `Worker.__del__`: raises unless the state is `init` or
`dismissed`. -/
def Worker.del (s : WState) : Except String Unit :=
  match s with
  | .init => .ok ()
  | .hired => .error "dismiss() must be called explicitly!"
  | .working => .error "dismiss() must be called explicitly!"
  | .dismissed => .ok ()

/-- The trace of `Worker.run`: the events it performs, in order.  `body`
stands for the `_start_working(); _process(); _stop_working()` block;
`outcome` is `some e` when that block raises `e` (then `_handle_exception`
is invoked), `none` when it returns normally. -/
inductive RunEvent (ε : Type) where
  | setState (s : WState)
  | body
  | handleException (e : ε)
  deriving Repr, DecidableEq

/-- Embeds `Worker.run`: set the state to `working`, execute the
(possibly throwing) body, catch any exception into `_handle_exception`,
then set the state to `dismissed`. -/
def Worker.run {ε : Type} (outcome : Option ε) : List (RunEvent ε) :=
  [.setState .working, .body] ++
    (match outcome with
     | none => []
     | some e => [.handleException e]) ++
  [.setState .dismissed]

/-- The state writes the `Worker` code ever performs: the `hire`
transition under the state lock, and the two writes in `run` (which runs
only after a successful `hire`, and whose exit write follows its entry
write). -/
inductive WStep : WState → WState → Prop where
  | hire : WStep .init .hired
  | runEnter : WStep .hired .working
  | runExit : WStep .working .dismissed

theorem wstep_rank_lt {a b : WState} (h : WStep a b) : a.rank < b.rank := by
  cases h <;> decide

theorem wsteps_rank_le {a b : WState} (h : Relation.ReflTransGen WStep a b) :
    a.rank ≤ b.rank := by
  induction h with
  | refl => exact Nat.le_refl _
  | tail _ hstep ih => exact Nat.le_trans ih (Nat.le_of_lt (wstep_rank_lt hstep))

/-- Claim C3: worker state transitions are monotonic along
Init→Hired→Working→Dismissed and never regress; `hire()` returns `False`
and leaves the worker unchanged unless the state is `Init`; after a
successful `hire()` the state is never again `Init`; and the `run`
routine's first action is the write Hired→Working (before the custom
body) and its last action is the write Working→Dismissed (after the body
returns or throws). -/
theorem C3_state_monotonic {ε : Type} (outcome : Option ε) :
    (∀ (s : WState) (ok : Bool), s ≠ .init → Worker.hire s ok = (false, s)) ∧
    (∀ a b : WState, WStep a b → a.rank < b.rank) ∧
    (∀ a b : WState, Relation.ReflTransGen WStep a b → a.rank ≤ b.rank) ∧
    (∀ s : WState, Relation.ReflTransGen WStep .hired s → s ≠ .init) ∧
    (Worker.run outcome).head? = some (.setState .working) ∧
    (Worker.run outcome).getLast? = some (.setState .dismissed) := by
  refine ⟨?_, fun _ _ h => wstep_rank_lt h, fun _ _ h => wsteps_rank_le h,
    ?_, ?_, ?_⟩
  · intro s ok hs
    cases s with
    | init => exact absurd rfl hs
    | hired => rfl
    | working => rfl
    | dismissed => rfl
  · intro s h
    have := wsteps_rank_le h
    intro heq
    rw [heq] at this
    exact absurd this (by decide)
  · cases outcome <;> rfl
  · cases outcome <;> rfl

theorem C3_state_monotonic_witness :
    Worker.hire .working true = (false, .working) ∧
    WState.rank .hired ≤ WState.rank .dismissed ∧
    (.dismissed : WState) ≠ .init := by
  have h := C3_state_monotonic (some ())
  refine ⟨h.1 .working true (by decide), ?_, ?_⟩
  · exact h.2.2.1 .hired .dismissed
      ((Relation.ReflTransGen.single WStep.runEnter).tail WStep.runExit)
  · exact h.2.2.2.1 .dismissed
      ((Relation.ReflTransGen.single WStep.runEnter).tail WStep.runExit)

/-- Claim C7: `Worker.dismiss()` is a no-op on any state other than
`hired` or `working`: the state is unchanged, no exception is raised, and
no event (no latch raise, no join, no `_post_working` hook) is performed;
in particular a second `dismiss()` on an already-`dismissed` worker is
again the identical no-op. -/
theorem C7_dismiss_noop (s : WState) (h1 : s ≠ .hired) (h2 : s ≠ .working) :
    Worker.dismiss s = (.ok s, []) := by
  cases s with
  | init => rfl
  | hired => exact absurd rfl h1
  | working => exact absurd rfl h2
  | dismissed => rfl

theorem C7_dismiss_noop_witness :
    Worker.dismiss .dismissed = (.ok .dismissed, []) ∧
    Worker.dismiss .dismissed = (.ok .dismissed, []) :=
  ⟨C7_dismiss_noop .dismissed (by decide) (by decide),
   C7_dismiss_noop .dismissed (by decide) (by decide)⟩

/-- Claim C10: when `hire()` returns `False` because `start()` raised,
the state has already been advanced to `hired` and is not rolled back;
hence every later `hire()` returns `False`, a later `dismiss()` raises
(`"Unknown error."`, from the final state check) instead of being a
no-op, and destruction (`__del__`) raises. -/
theorem C10_failed_start (ok : Bool) :
    Worker.hire .init false = (false, .hired) ∧
    Worker.hire .hired ok = (false, .hired) ∧
    (Worker.dismiss .hired).1 = .error "Unknown error." ∧
    Worker.del .hired = .error "dismiss() must be called explicitly!" :=
  ⟨rfl, rfl, rfl, rfl⟩

/-! ## Doer._process and Operator._process -/

/-- Inner drain loop of `Doer._process`: pop a task, process it via the
caller-supplied `_process_task` hook `h` (`h t = some e` models the hook
raising `e`, which aborts the loop), until `pop_task` returns `None`.
`l` is the sequence of tasks the queue yields during this pass.  Returns
the tasks handed to `_process_task` and the exception escaping the loop,
if any. -/
def drainPass {α ε : Type} (h : α → Option ε) : List α → List α × Option ε
  | [] => ([], none)
  | t :: ts =>
    match h t with
    | some e => ([t], some e)
    | none =>
      let r := drainPass h ts
      (t :: r.1, r.2)

/-- Outer loop of `Doer._process`.  `batches k` is the list of tasks the
queue yields during drain pass `k` (a task pushed concurrently appears in
the batch of the pass that pops it); `_dismissNotice.is_set()` first
returns `true` at the check following pass `noticeAt`.  Each iteration
drains a full pass, then breaks if `stopping` was set, else sets
`stopping` once the notice is observed (after the grace `sleep`).  A task
exception aborts everything (it propagates to `Worker.run`).  Returns the
tasks handed to `_process_task`, the escaping exception if any, and the
number of drain passes executed. -/
def doerLoop {α ε : Type} (h : α → Option ε) (batches : Nat → List α)
    (noticeAt : Nat) (k : Nat) (stopping : Bool) : List α × Option ε × Nat :=
  let r := drainPass h (batches k)
  match r.2 with
  | some e => (r.1, some e, 1)
  | none =>
    if stopping then (r.1, none, 1)
    else
      let rest := doerLoop h batches noticeAt (k + 1) (decide (noticeAt ≤ k))
      (r.1 ++ rest.1, rest.2.1, rest.2.2 + 1)
termination_by if stopping then 0 else (noticeAt - k) + 1
decreasing_by
  rename_i hstop
  by_cases hk : noticeAt ≤ k <;> simp [hstop, hk] <;> try omega

/-- Embeds `Doer._process` as called by the framework: the outer loop starting at
pass 0 with `stopping = False`. -/
def doerProcess {α ε : Type} (h : α → Option ε) (batches : Nat → List α)
    (noticeAt : Nat) : List α × Option ε × Nat :=
  doerLoop h batches noticeAt 0 false

/-- Embeds `Worker.run` wrapped around `Doer._process`: any exception escaping
`_process` is caught and passed to `_handle_exception` (recorded in the
second component), and the final state write `dismissed` happens
regardless. -/
def Worker.runDoer {α ε : Type} (h : α → Option ε) (batches : Nat → List α)
    (noticeAt : Nat) : List α × Option ε × WState :=
  let r := doerProcess h batches noticeAt
  (r.1, r.2.1, .dismissed)

/-- Loop of `Operator._process`: each iteration calls `_pop_task`
(`pops k` is what it returns at iteration `k`); on a task, process it via
`h` (a raise aborts the loop and propagates); then break once
`_dismissNotice.is_set()`, which first returns `true` at the check of
iteration `noticeAt`. -/
def operatorLoop {α ε : Type} (h : α → Option ε) (pops : Nat → Option α)
    (noticeAt : Nat) (k : Nat) : List α × Option ε :=
  match pops k with
  | some t =>
    match h t with
    | some e => ([t], some e)
    | none =>
      if noticeAt ≤ k then ([t], none)
      else
        let r := operatorLoop h pops noticeAt (k + 1)
        (t :: r.1, r.2)
  | none =>
    if noticeAt ≤ k then ([], none)
    else operatorLoop h pops noticeAt (k + 1)
termination_by (noticeAt - k) + 1
decreasing_by
  all_goals rename_i hk
  all_goals omega

/-- Embeds `Worker.run` wrapped around `Operator._process`. -/
def Worker.runOperator {α ε : Type} (h : α → Option ε) (pops : Nat → Option α)
    (noticeAt : Nat) : List α × Option ε × WState :=
  let r := operatorLoop h pops noticeAt 0
  (r.1, r.2, .dismissed)

theorem drainPass_all_none {α ε : Type} (h : α → Option ε) :
    ∀ l : List α, (∀ x ∈ l, h x = none) → drainPass h l = (l, none)
  | [], _ => rfl
  | t :: ts, hl => by
    have ht : h t = none := hl t (List.mem_cons_self t ts)
    have hts := drainPass_all_none h ts (fun x hx => hl x (List.mem_cons_of_mem t hx))
    simp [drainPass, ht, hts]

theorem drainPass_pure {α : Type} (l : List α) :
    drainPass (fun _ => (none : Option Unit)) l = (l, none) :=
  drainPass_all_none _ l (fun _ _ => rfl)

theorem drainPass_throw {α ε : Type} (h : α → Option ε) (e : ε) (t : α) :
    ∀ (pre : List α) (post : List α), h t = some e → (∀ x ∈ pre, h x = none) →
      drainPass h (pre ++ t :: post) = (pre ++ [t], some e)
  | [], post, ht, _ => by simp [drainPass, ht]
  | x :: pre, post, ht, hpre => by
    have hx : h x = none := hpre x (List.mem_cons_self x pre)
    have ih := drainPass_throw h e t pre post ht
      (fun y hy => hpre y (List.mem_cons_of_mem x hy))
    simp [drainPass, hx, ih]

theorem doerLoop_stop {α : Type} (batches : Nat → List α) (noticeAt k : Nat) :
    doerLoop (fun _ => (none : Option Unit)) batches noticeAt k true =
      (batches k, none, 1) := by
  rw [doerLoop]
  simp [drainPass_pure]

theorem doerLoop_pure {α : Type} (batches : Nat → List α) (noticeAt : Nat) :
    ∀ k, k ≤ noticeAt →
      doerLoop (fun _ => (none : Option Unit)) batches noticeAt k false =
        (((List.range' k (noticeAt + 2 - k)).map batches).flatten, none,
          noticeAt + 2 - k) := fun k hk => by
  rw [doerLoop]
  simp only [drainPass_pure]
  by_cases hkn : noticeAt ≤ k
  · have hke : k = noticeAt := Nat.le_antisymm hk hkn
    subst hke
    rw [show decide (k ≤ k) = true by simp, doerLoop_stop]
    have h2 : k + 2 - k = 2 := by omega
    rw [h2]
    simp [List.range']
  · have hrec := doerLoop_pure batches noticeAt (k + 1) (by omega)
    rw [show decide (noticeAt ≤ k) = false by simp [hkn], hrec]
    have h2 : noticeAt + 2 - k = (noticeAt + 2 - (k + 1)) + 1 := by omega
    rw [h2, List.range'_succ]
    simp
termination_by k _ => noticeAt - k
decreasing_by omega

/-- Claim C4: a Doer's `_process` loop, upon first observing the dismiss
notice while idle (the check after drain pass `noticeAt`), performs
exactly one more full drain pass before terminating: with a hook that
never throws, the passes executed are exactly `0, 1, …, noticeAt + 1`
(`noticeAt + 2` of them — one, pass `noticeAt + 1`, after the notice was
observed), and every task in the final batch — in particular one pushed
concurrently with dismissal — is processed before the Doer terminates. -/
theorem C4_grace_drain {α : Type} (batches : Nat → List α) (noticeAt : Nat) :
    doerProcess (fun _ => (none : Option Unit)) batches noticeAt =
      (((List.range (noticeAt + 2)).map batches).flatten, none, noticeAt + 2) ∧
    ∀ t ∈ batches (noticeAt + 1),
      t ∈ (doerProcess (fun _ => (none : Option Unit)) batches noticeAt).1 := by
  have h0 := doerLoop_pure batches noticeAt 0 (Nat.zero_le _)
  have hr : List.range' 0 (noticeAt + 2 - 0) = List.range (noticeAt + 2) := by
    rw [Nat.sub_zero, List.range_eq_range']
  have hmain : doerProcess (fun _ => (none : Option Unit)) batches noticeAt =
      (((List.range (noticeAt + 2)).map batches).flatten, none, noticeAt + 2) := by
    unfold doerProcess
    rw [h0, hr, Nat.sub_zero]
  refine ⟨hmain, ?_⟩
  intro t ht
  rw [hmain]
  simp only [List.mem_flatten, List.mem_map]
  exact ⟨batches (noticeAt + 1), ⟨noticeAt + 1, by simp [List.mem_range], rfl⟩, ht⟩

theorem C4_grace_drain_witness :
    doerProcess (fun _ => (none : Option Unit)) (fun k => [k]) 0 =
      ([0, 1], none, 2) ∧
    (1 : Nat) ∈ (doerProcess (fun _ => (none : Option Unit)) (fun k => [k]) 0).1 := by
  have h := C4_grace_drain (fun k => [k]) 0
  refine ⟨?_, h.2 1 (by simp)⟩
  rw [h.1]
  rfl

/-- Claim C2 as stated is false: with tasks `[1, 2]` queued and a
processing hook that throws on task `1`, the Doer's loop does not
continue — only task `1` is ever handed to `_process_task` (task `2` is
never processed) and only one drain pass runs, contradicting "continues
its processing loop". -/
theorem C2_counterexample :
    doerProcess (fun t => if t = 1 then some () else none)
        (fun k => if k = 0 then [1, 2] else []) 0 = ([1], some (), 1) ∧
    ¬ ((2 : Nat) ∈ (doerProcess (fun t => if t = 1 then some () else none)
        (fun k => if k = 0 then [1, 2] else []) 0).1) := by
  have hd : drainPass (fun t => if t = 1 then some () else none) [1, 2] =
      ([1], some ()) := by
    simp [drainPass]
  have hmain : doerProcess (fun t => if t = 1 then some () else none)
      (fun k => if k = 0 then [1, 2] else []) 0 = ([1], some (), 1) := by
    unfold doerProcess
    rw [doerLoop]
    simp [hd]
  refine ⟨hmain, ?_⟩
  rw [hmain]
  simp

/-- Claim C2 (amended): when the caller-supplied `_process_task` hook
throws during a Doer's or Operator's loop, the exception propagates out
of `_process`; `Worker.run` catches it, invokes the overridable
`_handle_exception` fault handler (default: swallow) with it, and the
worker still transitions to `dismissed` — but the processing loop
terminates rather than continuing: tasks after the throwing one are not
processed. -/
theorem C2_exception_caught_loop_ends {α ε : Type} (h : α → Option ε) (e : ε)
    (t : α) (pre post : List α) (batches : Nat → List α)
    (pops : Nat → Option α) (noticeAt : Nat)
    (ht : h t = some e) (hpre : ∀ x ∈ pre, h x = none)
    (hb : batches 0 = pre ++ t :: post) (hp : pops 0 = some t) :
    Worker.runDoer h batches noticeAt = (pre ++ [t], some e, .dismissed) ∧
    Worker.runOperator h pops noticeAt = ([t], some e, .dismissed) := by
  constructor
  · unfold Worker.runDoer doerProcess
    rw [doerLoop, hb, drainPass_throw h e t pre post ht hpre]
  · unfold Worker.runOperator
    rw [operatorLoop, hp]
    simp [ht]

theorem C2_exception_caught_loop_ends_witness :
    Worker.runDoer (fun t => if t = 1 then some () else none)
        (fun k => if k = 0 then [1, 2] else []) 0 = ([1], some (), .dismissed) ∧
    Worker.runOperator (fun t => if t = 1 then some () else none)
        (fun k => if k = 0 then some 1 else none) 0 = ([1], some (), .dismissed) := by
  have h := C2_exception_caught_loop_ends
    (fun t => if t = 1 then some () else none) () 1 [] [2]
    (fun k => if k = 0 then [1, 2] else [])
    (fun k => if k = 0 then some 1 else none) 0
    (by simp) (by simp) (by simp) (by simp)
  simpa using h

/-! ## Workers pool (`Workers.dismiss`, `dismiss_n`, `dismiss_all`) -/

/-- A pool member as `Workers.dismiss` observes it: its `id` and the
value of `is_idle()`. -/
structure Member where
  id : String
  idle : Bool
  deriving Repr, DecidableEq

/-- Index of the first idle member of a list, scanning front to back:
`findFirstIdle l.reverse` renders the source loop
`for i in range(0, count): if list[count-i-1].is_idle(): index = count-i-1`
which scans from the most-recently-added end. -/
def findFirstIdle : List Member → Option Nat
  | [] => none
  | w :: ws => if w.idle then some 0 else (findFirstIdle ws).map Nat.succ

/-- The `index` computed by `Workers.dismiss`'s idle scan: the first idle
member counting from the end, as the original index `count - i - 1`. -/
def lastIdleIdx (l : List Member) : Option Nat :=
  (findFirstIdle l.reverse).map (fun i => l.length - 1 - i)

/-- The list index `Workers.dismiss` removes, `none` when it returns 0:
empty pool, or a given `id` that no member carries.  Without an `id`, the
scan falls back to Python's `-1` (the last element, index `count - 1`)
when no member is idle. -/
def Workers.dismissSelect (l : List Member) (id? : Option String) : Option Nat :=
  if l.length ≤ 0 then none
  else
    match id? with
    | some id => l.findIdx? (fun w => decide (w.id = id))
    | none =>
      some (match lastIdleIdx l with
            | some j => j
            | none => l.length - 1)

/-- Embeds `Workers.dismiss`: select and `pop` the member under the list
lock, then call the member's `dismiss()` outside the lock.  Returns the
count (1 or 0), the remaining pool, and the member dismissed. -/
def Workers.dismiss (l : List Member) (id? : Option String) :
    Nat × List Member × Option Member :=
  match Workers.dismissSelect l id? with
  | none => (0, l, none)
  | some j => (1, l.eraseIdx j, l[j]?)

/-- Embeds `Workers.dismiss_n`: call `dismiss()` up to `n` times,
stopping at the first failure; returns the count and the remaining
pool. -/
def Workers.dismiss_n (l : List Member) : Nat → Nat × List Member
  | 0 => (0, l)
  | n + 1 =>
    let d := Workers.dismiss l none
    if d.1 = 0 then (0, l)
    else
      let r := Workers.dismiss_n d.2.1 n
      (r.1 + 1, r.2)

/-! ### Lemmas about the idle scan -/

theorem findFirstIdle_spec {l : List Member} {i : Nat}
    (h : findFirstIdle l = some i) :
    i < l.length ∧ (∃ m, l[i]? = some m ∧ m.idle = true) ∧
      ∀ k, k < i → ∀ m, l[k]? = some m → m.idle = false := by
  induction l generalizing i with
  | nil => simp [findFirstIdle] at h
  | cons w ws ih =>
    by_cases hw : w.idle
    · simp [findFirstIdle, hw] at h
      subst h
      exact ⟨Nat.succ_pos _, ⟨w, by simp, hw⟩, fun k hk => by omega⟩
    · simp only [findFirstIdle, hw, if_neg, Bool.false_eq_true, not_false_iff,
        Option.map_eq_some'] at h
      obtain ⟨i', hi', rfl⟩ := h
      obtain ⟨h1, ⟨m, hm, hmi⟩, h3⟩ := ih hi'
      refine ⟨by simpa using h1, ⟨m, by simpa using hm, hmi⟩, ?_⟩
      intro k hk m' hm'
      cases k with
      | zero =>
        simp at hm'
        subst hm'
        exact eq_false_of_ne_true hw
      | succ k' =>
        simp at hm'
        exact h3 k' (by omega) m' hm'

theorem findFirstIdle_none {l : List Member} (h : findFirstIdle l = none) :
    ∀ m ∈ l, m.idle = false := by
  induction l with
  | nil => simp
  | cons w ws ih =>
    by_cases hw : w.idle
    · simp [findFirstIdle, hw] at h
    · simp only [findFirstIdle, hw, if_neg, Bool.false_eq_true, not_false_iff,
        Option.map_eq_none'] at h
      intro m hm
      rcases List.mem_cons.mp hm with rfl | hm'
      · exact eq_false_of_ne_true hw
      · exact ih h m hm'

theorem lastIdleIdx_spec {l : List Member} {j : Nat}
    (h : lastIdleIdx l = some j) :
    j < l.length ∧ (∃ m, l[j]? = some m ∧ m.idle = true) ∧
      ∀ k, j < k → k < l.length → ∀ m, l[k]? = some m → m.idle = false := by
  simp only [lastIdleIdx, Option.map_eq_some'] at h
  obtain ⟨i, hi, rfl⟩ := h
  obtain ⟨h1, ⟨m, hm, hmi⟩, h3⟩ := findFirstIdle_spec hi
  rw [List.length_reverse] at h1
  have hrev : l.reverse[i]? = l[l.length - 1 - i]? := List.getElem?_reverse h1
  refine ⟨by omega, ⟨m, by rw [← hrev]; exact hm, hmi⟩, ?_⟩
  intro k hk hkl m' hm'
  have hik : l.length - 1 - k < i := by omega
  have hkrev : l.reverse[l.length - 1 - k]? = l[k]? := by
    rw [List.getElem?_reverse (by omega)]
    congr 1
    omega
  exact h3 (l.length - 1 - k) hik m' (by rw [hkrev]; exact hm')

theorem lastIdleIdx_none {l : List Member} (h : lastIdleIdx l = none) :
    ∀ m ∈ l, m.idle = false := by
  simp only [lastIdleIdx, Option.map_eq_none'] at h
  intro m hm
  exact findFirstIdle_none h m (List.mem_reverse.mpr hm)

/-- Claim C5: `Workers.dismiss()` with no id, on a non-empty pool,
removes exactly one member and returns 1, selecting the last idle member
scanning from the most-recently-added end and falling back to the
most-recently-added member when none is idle; on an empty pool, or when a
given id is not found, it removes nothing and returns 0. -/
theorem C5_dismiss_selection (l : List Member) (id : String) (hne : l ≠ []) :
    Workers.dismiss [] none = (0, ([] : List Member), none) ∧
    ((∀ m ∈ l, m.id ≠ id) → Workers.dismiss l (some id) = (0, l, none)) ∧
    ∃ j, j < l.length ∧
      Workers.dismiss l none = (1, l.eraseIdx j, l[j]?) ∧
      (l.eraseIdx j).length = l.length - 1 ∧
      ((∃ m ∈ l, m.idle = true) →
        (∃ m, l[j]? = some m ∧ m.idle = true) ∧
        ∀ k, j < k → k < l.length → ∀ m, l[k]? = some m → m.idle = false) ∧
      ((∀ m ∈ l, m.idle = false) → j = l.length - 1) := by
  refine ⟨rfl, ?_, ?_⟩
  · intro hid
    have hfind : l.findIdx? (fun w => decide (w.id = id)) = none := by
      rw [List.findIdx?_eq_none_iff]
      intro x hx
      simp [hid x hx]
    unfold Workers.dismiss Workers.dismissSelect
    rcases l with _ | ⟨w, ws⟩
    · rfl
    · simp [hfind]
  · have hlen : ¬ l.length ≤ 0 := by
      simpa [Nat.le_zero, List.length_eq_zero] using hne
    cases hscan : lastIdleIdx l with
    | some j =>
      obtain ⟨hj, hidle, hlater⟩ := lastIdleIdx_spec hscan
      refine ⟨j, hj, ?_, List.length_eraseIdx_of_lt hj, fun _ => ⟨hidle, hlater⟩, ?_⟩
      · unfold Workers.dismiss Workers.dismissSelect
        simp [hlen, hscan]
      · intro hall
        obtain ⟨m, hm, hmi⟩ := hidle
        have : m ∈ l := by
          have := List.getElem?_eq_some_iff.mp hm
          obtain ⟨hlt, rfl⟩ := this
          exact List.getElem_mem hlt
        rw [hall m this] at hmi
        cases hmi
    | none =>
      have hall := lastIdleIdx_none hscan
      have hj : l.length - 1 < l.length := by
        have : 0 < l.length := by
          cases l with
          | nil => exact absurd rfl hne
          | cons _ _ => simp
        omega
      refine ⟨l.length - 1, hj, ?_, List.length_eraseIdx_of_lt hj, ?_, fun _ => rfl⟩
      · unfold Workers.dismiss Workers.dismissSelect
        simp [hlen, hscan]
      · intro ⟨m, hm, hmi⟩
        rw [hall m hm] at hmi
        cases hmi

theorem C5_dismiss_selection_witness :
    Workers.dismiss [] none = (0, ([] : List Member), none) ∧
    Workers.dismiss [⟨"a", false⟩] (some "b") = (0, [⟨"a", false⟩], none) ∧
    ∃ j, j < 1 ∧ Workers.dismiss [(⟨"a", false⟩ : Member)] none =
      (1, [⟨"a", false⟩].eraseIdx j, [(⟨"a", false⟩ : Member)][j]?) := by
  have h := C5_dismiss_selection [⟨"a", false⟩] "b" (by simp)
  refine ⟨h.1, h.2.1 (by simp), ?_⟩
  obtain ⟨j, hj, heq, _⟩ := h.2.2
  exact ⟨j, hj, heq⟩

/-! ### Lock traces of the dismissing pool operations -/

/-- The events of a pool operation that matter for the locking claim:
acquiring/releasing `__listLock`, removing a member from `__list`
(`pop`), and calling the removed member's blocking `dismiss()`. -/
inductive PoolEvent where
  | acquire
  | release
  | popMember (idx : Nat)
  | memberDismiss
  deriving Repr, DecidableEq

/-- Event trace of `Workers.dismiss`: everything up to and including the
`pop` runs inside `with self.__listLock`; the early `return 0` paths also
release the lock; the member's `dismiss()` runs after the `with` block. -/
def Workers.dismissTrace (l : List Member) (id? : Option String) :
    List PoolEvent :=
  match Workers.dismissSelect l id? with
  | none => [.acquire, .release]
  | some j => [.acquire, .popMember j, .release, .memberDismiss]

/-- Event trace of `Workers.dismiss_n`: the concatenation of the
single-dismiss traces, stopping after a failed dismiss. -/
def Workers.dismissNTrace (l : List Member) : Nat → List PoolEvent
  | 0 => []
  | n + 1 =>
    let tr := Workers.dismissTrace l none
    let d := Workers.dismiss l none
    if d.1 = 0 then tr
    else tr ++ Workers.dismissNTrace d.2.1 n

/-- Body of `Workers.dismiss_all`'s `while` loop: it repeatedly
`pop(-1)`s the last member and calls its `dismiss()` — all of it inside
the single `with self.__listLock` block. -/
def Workers.dismissAllTraceAux : List Member → List PoolEvent
  | [] => []
  | w :: ws =>
    [.popMember ws.length, .memberDismiss] ++
      Workers.dismissAllTraceAux (w :: ws).dropLast
termination_by l => l.length
decreasing_by simp

/-- Event trace of `Workers.dismiss_all`: one lock acquisition around the
whole drain loop. -/
def Workers.dismissAllTrace (l : List Member) : List PoolEvent :=
  [PoolEvent.acquire] ++ Workers.dismissAllTraceAux l ++ [PoolEvent.release]

/-- Computes `true` iff no `memberDismiss` event happens while the pool lock is
held (`d` is the current hold depth). -/
def noDismissUnderLock : List PoolEvent → Nat → Bool
  | [], _ => true
  | .acquire :: tr, d => noDismissUnderLock tr (d + 1)
  | .release :: tr, d => noDismissUnderLock tr (d - 1)
  | .popMember _ :: tr, d => noDismissUnderLock tr d
  | .memberDismiss :: tr, d => decide (d = 0) && noDismissUnderLock tr d

/-- Computes `true` iff every `memberDismiss` event is preceded by some
`popMember` (the member is detached before its `dismiss()` is called);
`seen` records whether a `popMember` has occurred yet. -/
def dismissAfterDetach : List PoolEvent → Bool → Bool
  | [], _ => true
  | .popMember _ :: tr, _ => dismissAfterDetach tr true
  | .memberDismiss :: tr, seen => seen && dismissAfterDetach tr seen
  | _ :: tr, seen => dismissAfterDetach tr seen

theorem noDismissUnderLock_dismissTrace_append (l : List Member)
    (id? : Option String) (tr : List PoolEvent) :
    noDismissUnderLock (Workers.dismissTrace l id? ++ tr) 0 =
      noDismissUnderLock tr 0 := by
  unfold Workers.dismissTrace
  cases Workers.dismissSelect l id? with
  | none => simp [noDismissUnderLock]
  | some j => simp [noDismissUnderLock]

theorem dismissAfterDetach_mono {tr : List PoolEvent}
    (h : dismissAfterDetach tr false = true) :
    dismissAfterDetach tr true = true := by
  induction tr with
  | nil => rfl
  | cons ev tr ih =>
    cases ev with
    | acquire => exact ih (by simpa [dismissAfterDetach] using h)
    | release => exact ih (by simpa [dismissAfterDetach] using h)
    | popMember j =>
      simp [dismissAfterDetach] at h ⊢
      exact h
    | memberDismiss => simp [dismissAfterDetach] at h

theorem dismissAfterDetach_dismissTrace_append (l : List Member)
    (id? : Option String) (tr : List PoolEvent)
    (h : dismissAfterDetach tr false = true) :
    dismissAfterDetach (Workers.dismissTrace l id? ++ tr) false = true := by
  unfold Workers.dismissTrace
  cases Workers.dismissSelect l id? with
  | none => simpa [dismissAfterDetach] using h
  | some j =>
    simp [dismissAfterDetach]
    exact dismissAfterDetach_mono h

theorem noDismissUnderLock_dismissNTrace (n : Nat) :
    ∀ l : List Member, noDismissUnderLock (Workers.dismissNTrace l n) 0 = true := by
  induction n with
  | zero => intro l; rfl
  | succ n ih =>
    intro l
    unfold Workers.dismissNTrace
    by_cases hd : (Workers.dismiss l none).1 = 0
    · simp only [hd, if_pos]
      have := noDismissUnderLock_dismissTrace_append l none []
      simpa using this
    · simp only [hd, if_neg, not_false_iff]
      rw [noDismissUnderLock_dismissTrace_append]
      exact ih _

theorem dismissAfterDetach_dismissNTrace (n : Nat) :
    ∀ l : List Member, dismissAfterDetach (Workers.dismissNTrace l n) false = true := by
  induction n with
  | zero => intro l; rfl
  | succ n ih =>
    intro l
    unfold Workers.dismissNTrace
    by_cases hd : (Workers.dismiss l none).1 = 0
    · simp only [hd, if_pos]
      have := dismissAfterDetach_dismissTrace_append l none [] (by rfl)
      simpa using this
    · simp only [hd, if_neg, not_false_iff]
      exact dismissAfterDetach_dismissTrace_append _ _ _ (ih _)

/-- Claim C8 as stated is false for `dismiss_all`: on the one-member pool
`[⟨"a", true⟩]` the member's blocking `dismiss()` is called at lock depth
1 — inside the `with self.__listLock` block — not with the pool lock
released. -/
theorem C8_counterexample :
    noDismissUnderLock
      (Workers.dismissAllTrace [⟨"a", true⟩]) 0 = false := by
  have h1 : Workers.dismissAllTraceAux [⟨"a", true⟩] =
      [.popMember 0, .memberDismiss] := by
    rw [Workers.dismissAllTraceAux]
    simp [Workers.dismissAllTraceAux]
  rw [Workers.dismissAllTrace, h1]
  rfl

/-- Claim C8 (amended): for `Workers.dismiss` and `Workers.dismiss_n`
the pool lock is held only for the select-and-remove step and the member
`dismiss()` call happens after the lock is released, with the member
already detached; `Workers.dismiss_all`, however, calls each member's
`dismiss()` while still holding the pool-wide lock (though also after
detaching the member). -/
theorem C8_lock_discipline (l : List Member) (id? : Option String) (n : Nat)
    (hne : l ≠ []) :
    noDismissUnderLock (Workers.dismissTrace l id?) 0 = true ∧
    dismissAfterDetach (Workers.dismissTrace l id?) false = true ∧
    noDismissUnderLock (Workers.dismissNTrace l n) 0 = true ∧
    dismissAfterDetach (Workers.dismissNTrace l n) false = true ∧
    noDismissUnderLock (Workers.dismissAllTrace l) 0 = false := by
  refine ⟨?_, ?_, noDismissUnderLock_dismissNTrace n l,
    dismissAfterDetach_dismissNTrace n l, ?_⟩
  · have := noDismissUnderLock_dismissTrace_append l id? []
    simpa using this
  · have := dismissAfterDetach_dismissTrace_append l id? [] (by rfl)
    simpa using this
  · rcases l with _ | ⟨w, ws⟩
    · exact absurd rfl hne
    · rw [Workers.dismissAllTrace, Workers.dismissAllTraceAux]
      simp [noDismissUnderLock]

theorem C8_lock_discipline_witness :
    noDismissUnderLock
      (Workers.dismissTrace [⟨"a", true⟩] none) 0 = true ∧
    noDismissUnderLock
      (Workers.dismissAllTrace [⟨"a", true⟩]) 0 = false := by
  have h := C8_lock_discipline [⟨"a", true⟩] none 1 (by simp)
  exact ⟨h.1, h.2.2.2.2⟩

/-! ## Team.finish_all_tasks -/

/-- Observable actions of one `finish_all_tasks` iteration: the
emergency `hire_operator(1)` call and the `time.sleep(0.5)` wait, tagged
with the iteration index. -/
inductive TeamEvent where
  | emergencyHire (k : Nat)
  | wait (k : Nat)
  deriving Repr, DecidableEq

/-- Outcome of running `finish_all_tasks`: the loop saw the queue empty
and returned; or it raised `"Failed to hire operator to finish remaining
tasks!"`; or the modelling fuel ran out while the loop was still
spinning. -/
inductive FinishResult where
  | completed (events : List TeamEvent)
  | failed (events : List TeamEvent)
  | fuelOut (events : List TeamEvent)
  deriving Repr, DecidableEq

/-- Prefix some events onto a `FinishResult`'s event log. -/
def FinishResult.after (evs : List TeamEvent) : FinishResult → FinishResult
  | .completed e => .completed (evs ++ e)
  | .failed e => .failed (evs ++ e)
  | .fuelOut e => .fuelOut (evs ++ e)

/-- Embeds `Team.finish_all_tasks`: while the queue is non-empty
(`queueEmpty k` is `task_queue.empty()` observed at iteration `k`), if
the operator count (`opCount k`) has dropped to 0, hire one emergency
operator — raising when the hire fails (`hireOk k = false`, e.g. when
`operator_class` is unset) — then sleep and re-check.  `fuel` bounds the
modelled iterations. -/
def finish_all_tasks (queueEmpty : Nat → Bool) (opCount : Nat → Nat)
    (hireOk : Nat → Bool) : Nat → Nat → FinishResult
  | 0, _ => .fuelOut []
  | fuel + 1, k =>
    if queueEmpty k then .completed []
    else
      if opCount k ≤ 0 then
        if hireOk k then
          (finish_all_tasks queueEmpty opCount hireOk fuel (k + 1)).after
            [.emergencyHire k, .wait k]
        else .failed []
      else
        (finish_all_tasks queueEmpty opCount hireOk fuel (k + 1)).after [.wait k]

/-- Claim C6: whenever `finish_all_tasks` runs an iteration with the
queue non-empty and the operator count at 0, it hires an emergency
operator before that iteration's wait (the iteration's events start
`emergencyHire k, wait k`), and it raises when that emergency hire
fails — so dismissal does not silently stall with tasks remaining and no
operators. -/
theorem C6_emergency_hire (queueEmpty : Nat → Bool) (opCount : Nat → Nat)
    (hireOk : Nat → Bool) (fuel k : Nat)
    (hq : queueEmpty k = false) (hc : opCount k = 0) :
    (hireOk k = false →
      finish_all_tasks queueEmpty opCount hireOk (fuel + 1) k = .failed []) ∧
    (hireOk k = true →
      finish_all_tasks queueEmpty opCount hireOk (fuel + 1) k =
        (finish_all_tasks queueEmpty opCount hireOk fuel (k + 1)).after
          [.emergencyHire k, .wait k]) := by
  constructor
  · intro hh
    simp [finish_all_tasks, hq, hc, hh]
  · intro hh
    simp [finish_all_tasks, hq, hc, hh]

theorem C6_emergency_hire_witness :
    finish_all_tasks (fun k => decide (1 ≤ k)) (fun _ => 0) (fun _ => false) 1 0 =
      .failed [] ∧
    finish_all_tasks (fun k => decide (1 ≤ k)) (fun _ => 0) (fun _ => true) 2 0 =
      .completed [.emergencyHire 0, .wait 0] := by
  have h1 := C6_emergency_hire (fun k => decide (1 ≤ k)) (fun _ => 0)
    (fun _ => false) 0 0 (by simp) rfl
  have h2 := C6_emergency_hire (fun k => decide (1 ≤ k)) (fun _ => 0)
    (fun _ => true) 1 0 (by simp) rfl
  refine ⟨h1.1 rfl, ?_⟩
  rw [h2.2 rfl]
  simp [finish_all_tasks, FinishResult.after]

/-! ## TaskQueue.push_task failure behaviour -/

/-- Claim C9: `TaskQueue.push_task` returns `False` when the task is
`None`, leaving the queue contents and the `total_count` / `peak_count`
counters untouched, and returns `True` (with the item inserted and the
counters updated) whenever the blocking `put` succeeds — in particular
whenever the queue is unbounded or not full. -/
theorem C9_push_task_none (q : TaskQueue Nat) (p : Int) (t : Nat)
    (hroom : ¬(q.maxsize ≠ 0 ∧ q.maxsize ≤ q.items.length)) :
    q.push_task none p = (false, q) ∧
    (q.push_task none p).2.items = q.items ∧
    (q.push_task none p).2.total_count = q.total_count ∧
    (q.push_task none p).2.peak_count = q.peak_count ∧
    (q.push_task (some t) p).1 = true ∧
    (q.push_task (some t) p).2.items =
      q.items ++ [⟨q.total_count + 1, p, t⟩] := by
  refine ⟨rfl, rfl, rfl, rfl, ?_, ?_⟩ <;>
    simp [TaskQueue.push_task, hroom]

theorem C9_push_task_none_witness :
    (TaskQueue.mk0 Nat 0).push_task none 100 = (false, TaskQueue.mk0 Nat 0) ∧
    ((TaskQueue.mk0 Nat 0).push_task (some 7) 100).1 = true ∧
    ((TaskQueue.mk0 Nat 0).push_task (some 7) 100).2.items = [⟨1, 100, 7⟩] := by
  have h := C9_push_task_none (TaskQueue.mk0 Nat 0) 100 7 (by simp [TaskQueue.mk0])
  refine ⟨h.1, h.2.2.2.2.1, ?_⟩
  rw [h.2.2.2.2.2]
  rfl

end Pipeline
